import Mathlib

/-!
Shallow embedding of the webhook ingestion and agent-dispatch slice of the
CODE_ALCHEMY_PRO repository (files `src/web/n8n_integration/webhook_handler.py`,
`src/web/n8n_integration/security_manager.py`, `src/agents/agent_manager.py`,
`src/agents/base/agent_interface.py`), together with theorems settling the
frozen claims about this slice.

Modelling conventions:
- wall-clock instants are integers (the claims only compare instants and take
  differences, so the float-valued `time.time()` is embedded as `Int`, and
  `datetime.now()` as an explicit `Timestamp` record of calendar fields);
- Python dict results become structures carrying the fields the slice reads;
- a Python method that can raise is embedded as a function into `Except`;
- in-place mutation of `self` becomes explicit state passing: each operation
  returns its result together with the updated state;
- object identity (the same dict object being referenced from the webhook
  history list and from the processing queue) is modelled with a ghost serial
  number stamped on every webhook record at submission time.
-/

namespace CodeAlchemy

/-! ## Bounded history buffers

Both `WebhookHandler.process_webhook` (webhook_handler.py lines 52-55) and
`AgentManager._add_to_history` (agent_manager.py lines 274-278) append to a
list and then, when the length exceeds `max_history`, call `pop(0)`. -/

/-- Append `x` to `l`; if the resulting length exceeds `cap`, drop the oldest
(front) element. This is `list.append(x)` followed by
`if len(list) > cap: list.pop(0)`. -/
def pushCap (cap : Nat) (l : List α) (x : α) : List α :=
  if cap < (l ++ [x]).length then (l ++ [x]).drop 1 else l ++ [x]

/-! ## Webhook id generation

`WebhookHandler._generate_webhook_id` (webhook_handler.py lines 200-203)
formats `datetime.now()` with `strftime("%Y%m%d_%H%M%S_%f")` and prefixes
`"webhook_"`. A `datetime` value is embedded as its calendar fields. -/

/-- Calendar instant at microsecond precision, the value of
`datetime.now()` as read by `strftime("%Y%m%d_%H%M%S_%f")`. -/
structure Timestamp where
  year : Nat
  month : Nat
  day : Nat
  hour : Nat
  minute : Nat
  second : Nat
  microsecond : Nat
deriving DecidableEq, Repr

/-- Field ranges of a real `datetime` value (generously, the ranges under
which each `strftime` field prints in its fixed zero-padded width). -/
def Timestamp.valid (t : Timestamp) : Prop :=
  t.year < 10000 ∧ t.month < 100 ∧ t.day < 100 ∧ t.hour < 100 ∧
    t.minute < 100 ∧ t.second < 100 ∧ t.microsecond < 1000000

instance (t : Timestamp) : Decidable t.valid := by
  unfold Timestamp.valid; infer_instance

/-- Fixed-width base-10 rendering with leading zeros, as characters.
For `n < 10^w` this is exactly the zero-padded decimal that the
corresponding `strftime` directive prints. -/
def digitsPad : Nat → Nat → List Char
  | 0, _ => []
  | w + 1, n => digitsPad w (n / 10) ++ [Char.ofNat (48 + n % 10)]

/-- Characters of the generated webhook id, `strftime("%Y%m%d_%H%M%S_%f")`
prefixed with `webhook_`. -/
def webhookIdChars (t : Timestamp) : List Char :=
  "webhook_".data ++ digitsPad 4 t.year ++ digitsPad 2 t.month ++
    digitsPad 2 t.day ++ ['_'] ++ digitsPad 2 t.hour ++ digitsPad 2 t.minute ++
    digitsPad 2 t.second ++ ['_'] ++ digitsPad 6 t.microsecond

/-- Embedding of `WebhookHandler._generate_webhook_id`. -/
def generateWebhookId (t : Timestamp) : String :=
  ⟨webhookIdChars t⟩

/-- Reading the padded digit string back as a number. -/
def valDigits (l : List Char) : Nat :=
  l.foldl (fun acc c => acc * 10 + (c.toNat - 48)) 0

/-! ## Webhook handler

Embedding of `WebhookHandler` (webhook_handler.py). A webhook payload is a
string-keyed bag; `payloadGet` is `dict.get(key, default)`. The per-type
handler methods are collected in a `Handlers` record so that theorems can
quantify over handler behaviour (in particular over handlers that raise,
embedded as `Except.error`); `sourceHandlers` below is the repository's own
set of handlers, which only log and acknowledge. -/

def payloadGet (p : List (String × String)) (key dflt : String) : String :=
  match p.lookup key with
  | some v => v
  | none => dflt

/-- Result dictionary returned by a per-type webhook handler: its `status`
and `message` keys (the ones the dispatcher and the claims read), plus the
remaining keys verbatim. -/
structure RouteResult where
  status : String
  message : Option String := none
  fields : List (String × String) := []
deriving DecidableEq, Repr

/-- One webhook record. `wtype` is the payload's `"type"` key (absent means
the routing default `"unknown"`); `serial` is a ghost field modelling object
identity: the Python dict is shared between `webhook_history` and
`processing_queue`, and the dispatcher's in-place `update` is embedded as an
update of every stored record with the same serial. -/
structure WebhookRecord where
  wtype : Option String := none
  payload : List (String × String) := []
  received_at : Option Timestamp := none
  processed : Bool := false
  processed_at : Option Timestamp := none
  result : Option RouteResult := none
  webhook_id : String := ""
  serial : Nat := 0
deriving DecidableEq, Repr

/-- The five per-type handler methods of `WebhookHandler`; a raising handler
is one returning `Except.error`. -/
structure Handlers where
  system_alert : WebhookRecord → Except String RouteResult
  file_organization : WebhookRecord → Except String RouteResult
  content_analysis : WebhookRecord → Except String RouteResult
  agent_status : WebhookRecord → Except String RouteResult
  generic : WebhookRecord → Except String RouteResult

/-- Type-based dispatch of `_route_webhook` (lines 106-115). -/
def selectHandler (hs : Handlers) (t : String) :
    WebhookRecord → Except String RouteResult :=
  if t = "system_alert" then hs.system_alert
  else if t = "file_organization" then hs.file_organization
  else if t = "content_analysis" then hs.content_analysis
  else if t = "agent_status" then hs.agent_status
  else hs.generic

/-- Embedding of `_route_webhook`: route by the record's declared type and
catch any exception from the handler, converting it into
`{"status": "error", "message": str(e)}` (lines 117-119). -/
def routeWebhook (hs : Handlers) (r : WebhookRecord) : RouteResult :=
  match selectHandler hs (r.wtype.getD "unknown") r with
  | .ok res => res
  | .error e => { status := "error", message := some e }

/-- The repository's own handlers (`_handle_system_alert` …
`_handle_generic_webhook`, lines 121-198): each only reads payload keys with
defaults and acknowledges; none of them raises. In `_handle_agent_status` the
Python dict literal repeats the `"status"` key, so the later binding (the
agent's reported status) wins. -/
def sourceHandlers : Handlers where
  system_alert r := .ok
    { status := "processed",
      fields := [("alert_type", payloadGet r.payload "alert_type" "info"),
                 ("severity", payloadGet r.payload "severity" "info"),
                 ("action", "logged")] }
  file_organization r := .ok
    { status := "processed",
      fields := [("action", payloadGet r.payload "action" "unknown"),
                 ("file_path", payloadGet r.payload "file_path" ""),
                 ("result", "acknowledged")] }
  content_analysis r := .ok
    { status := "processed",
      fields := [("content_type", payloadGet r.payload "content_type" "unknown"),
                 ("content_id", payloadGet r.payload "content_id" ""),
                 ("result", "acknowledged")] }
  agent_status r := .ok
    { status := payloadGet r.payload "status" "unknown",
      fields := [("agent_name", payloadGet r.payload "agent_name" "unknown"),
                 ("result", "acknowledged")] }
  generic _ := .ok
    { status := "processed",
      fields := [("type", "generic"), ("result", "acknowledged")] }

/-- Return dictionary of `process_webhook` (success path, lines 62-67; error
path, lines 71-74 — unreachable in the embedding since the body is total). -/
structure SubmitResult where
  success : Bool
  status : String
  webhook_id : Option String := none
  processing : Option String := none
deriving DecidableEq, Repr

/-- State of a `WebhookHandler` instance. `next_serial` and `processed_log`
are ghost fields: the next object-identity stamp, and the serials of the
records the dispatcher has processed, in processing order. -/
structure WebhookHandler where
  webhook_history : List WebhookRecord := []
  processing_queue : List WebhookRecord := []
  max_history : Nat := 1000
  next_serial : Nat := 0
  processed_log : List Nat := []

/-- Embedding of `process_webhook` (lines 42-67): stamp the payload with
`received_at`, `processed=False` and a generated id, append to the bounded
history, enqueue, and return an `accepted` result. -/
def processWebhook (h : WebhookHandler) (wtype : Option String)
    (payload : List (String × String)) (now : Timestamp) :
    SubmitResult × WebhookHandler :=
  let r : WebhookRecord :=
    { wtype := wtype, payload := payload, received_at := some now,
      processed := false, webhook_id := generateWebhookId now,
      serial := h.next_serial }
  ({ success := true, status := "accepted", webhook_id := some r.webhook_id,
     processing := some "queued" },
   { h with
     webhook_history := pushCap h.max_history h.webhook_history r,
     processing_queue := h.processing_queue ++ [r],
     next_serial := h.next_serial + 1 })

/-- In-place `webhook_data.update({processed, processed_at, result})` of the
dispatcher (lines 87-91), applied through object identity to every stored
record with the given serial. -/
def markProcessed (now : Timestamp) (res : RouteResult) (serial : Nat)
    (r : WebhookRecord) : WebhookRecord :=
  if r.serial = serial then
    { r with processed := true, processed_at := some now, result := some res }
  else r

/-- One iteration of the `_process_webhook_queue` consumer loop (lines
78-99): take the next queued record (suspend, i.e. no-op here, if the queue
is empty), route it — `routeWebhook` already converts a raising handler into
an error result, and nothing else in the loop body can raise, so the outer
`except` of the loop never fires in the embedding — and record the outcome
on the stored record. -/
def processOne (hs : Handlers) (now : Timestamp) (h : WebhookHandler) :
    WebhookHandler :=
  match h.processing_queue with
  | [] => h
  | r :: rest =>
    let res := routeWebhook hs r
    { h with
      processing_queue := rest,
      webhook_history := h.webhook_history.map (markProcessed now res r.serial),
      processed_log := h.processed_log ++ [r.serial] }

/-- Run the consumer loop for one iteration per supplied wall-clock instant. -/
def drainAll (hs : Handlers) (ts : List Timestamp) (h : WebhookHandler) :
    WebhookHandler :=
  ts.foldl (fun st now => processOne hs now st) h

/-- Return dictionary of `get_webhook_stats` (lines 230-240). -/
structure WebhookStats where
  total_webhooks : Nat
  processed_webhooks : Nat
  pending_webhooks : Nat
  success_rate : ℚ
deriving DecidableEq, Repr

/-- Embedding of `get_webhook_stats`. -/
def getWebhookStats (h : WebhookHandler) : WebhookStats :=
  let total := h.webhook_history.length
  let processed := (h.webhook_history.filter (·.processed)).length
  { total_webhooks := total,
    processed_webhooks := processed,
    pending_webhooks := h.processing_queue.length,
    success_rate := if 0 < total then (processed : ℚ) / (total : ℚ) * 100 else 0 }

/-! ## SHA-256

`SecurityManager.rotate_api_key` stores `hashlib.sha256(new_key.encode()).hexdigest()`.
This is a direct embedding of SHA-256 (FIPS 180-4) over 32-bit words
represented as `Nat` reduced modulo `2^32`; the configured keys are ASCII,
so `encode()` (UTF-8) is the codepoint-per-byte map. -/

def M32 : Nat := 4294967296

def rotr32 (n w : Nat) : Nat := ((w >>> n) ||| (w <<< (32 - n))) % M32

def shaCh (x y z : Nat) : Nat := (x &&& y) ^^^ ((x ^^^ 4294967295) &&& z)

def shaMaj (x y z : Nat) : Nat := (x &&& y) ^^^ (x &&& z) ^^^ (y &&& z)

def bigSigma0 (x : Nat) : Nat := rotr32 2 x ^^^ rotr32 13 x ^^^ rotr32 22 x

def bigSigma1 (x : Nat) : Nat := rotr32 6 x ^^^ rotr32 11 x ^^^ rotr32 25 x

def smallSigma0 (x : Nat) : Nat := rotr32 7 x ^^^ rotr32 18 x ^^^ (x >>> 3)

def smallSigma1 (x : Nat) : Nat := rotr32 17 x ^^^ rotr32 19 x ^^^ (x >>> 10)

def shaK : List Nat :=
  [1116352408, 1899447441, 3049323471, 3921009573, 961987163,
   1508970993, 2453635748, 2870763221, 3624381080, 310598401,
   607225278, 1426881987, 1925078388, 2162078206, 2614888103,
   3248222580, 3835390401, 4022224774, 264347078, 604807628,
   770255983, 1249150122, 1555081692, 1996064986, 2554220882,
   2821834349, 2952996808, 3210313671, 3336571891, 3584528711,
   113926993, 338241895, 666307205, 773529912, 1294757372,
   1396182291, 1695183700, 1986661051, 2177026350, 2456956037,
   2730485921, 2820302411, 3259730800, 3345764771, 3516065817,
   3600352804, 4094571909, 275423344, 430227734, 506948616,
   659060556, 883997877, 958139571, 1322822218, 1537002063,
   1747873779, 1955562222, 2024104815, 2227730452, 2361852424,
   2428436474, 2756734187, 3204031479, 3329325298]

def shaH0 : List Nat :=
  [1779033703, 3144134277, 1013904242, 2773480762, 1359893119,
   2600822924, 528734635, 1541459225]

def toBytesBE : Nat → Nat → List Nat
  | 0, _ => []
  | k + 1, n => toBytesBE k (n / 256) ++ [n % 256]

def padMessage (msg : List Nat) : List Nat :=
  let padZeros := (119 - msg.length % 64) % 64
  msg ++ [128] ++ List.replicate padZeros 0 ++ toBytesBE 8 (8 * msg.length)

def toWords : List Nat → List Nat
  | b0 :: b1 :: b2 :: b3 :: rest =>
    (((b0 * 256 + b1) * 256 + b2) * 256 + b3) :: toWords rest
  | _ => []

def chunks16Go : Nat → List Nat → List (List Nat)
  | 0, _ => []
  | k + 1, ws => ws.take 16 :: chunks16Go k (ws.drop 16)

def chunks16 (ws : List Nat) : List (List Nat) := chunks16Go (ws.length / 16) ws

def nextScheduleWord (acc : List Nat) : Nat :=
  (smallSigma1 (acc.getD (acc.length - 2) 0) + acc.getD (acc.length - 7) 0 +
    smallSigma0 (acc.getD (acc.length - 15) 0) + acc.getD (acc.length - 16) 0) % M32

def extendGo : Nat → List Nat → List Nat
  | 0, acc => acc
  | k + 1, acc => extendGo k (acc ++ [nextScheduleWord acc])

def shaSchedule (block : List Nat) : List Nat := extendGo 48 block

def shaRound (st : List Nat) (wk : Nat × Nat) : List Nat :=
  match st with
  | [a, b, c, d, e, f, g, hh] =>
    let t1 := (hh + bigSigma1 e + shaCh e f g + wk.2 + wk.1) % M32
    let t2 := (bigSigma0 a + shaMaj a b c) % M32
    [(t1 + t2) % M32, a, b, c, (d + t1) % M32, e, f, g]
  | _ => st

def compressBlock (hs : List Nat) (block : List Nat) : List Nat :=
  let w := shaSchedule block
  let final := (w.zip shaK).foldl shaRound hs
  (hs.zip final).map (fun p => (p.1 + p.2) % M32)

def hexDigit (d : Nat) : Char :=
  if d < 10 then Char.ofNat (48 + d) else Char.ofNat (87 + d)

def hexWord : Nat → Nat → List Char
  | 0, _ => []
  | k + 1, n => hexWord k (n / 16) ++ [hexDigit (n % 16)]

/-- Embedding of `hashlib.sha256(s.encode()).hexdigest()` for ASCII `s`. -/
def sha256hex (s : String) : String :=
  let bytes := s.data.map Char.toNat
  let blocks := chunks16 (toWords (padMessage bytes))
  let digest := blocks.foldl compressBlock shaH0
  ⟨digest.foldl (fun acc w => acc ++ hexWord 8 w) []⟩

/-! ## Security manager

Embedding of `SecurityManager` (security_manager.py). `time.time()` instants
are embedded as `Int`; association lists with string keys model Python dicts
(insertion-ordered, new keys appended at the end). -/

/-- First-match lookup in a string-keyed association list (`dict[k]` /
`dict.get(k)`). -/
def alookup : List (String × β) → String → Option β
  | [], _ => none
  | (k, v) :: rest, key => if k = key then some v else alookup rest key

/-- Overwrite the value stored under an existing key (every occurrence —
with unique keys, exactly the Python `dict[k] = v` on a present key). -/
def aset : List (String × β) → String → β → List (String × β)
  | [], _, _ => []
  | (k, v) :: rest, key, nv =>
    if k = key then (k, nv) :: aset rest key nv else (k, v) :: aset rest key nv

/-- Python `dict[k] = v`: overwrite a present key, append an absent one. -/
def astore (l : List (String × β)) (key : String) (v : β) : List (String × β) :=
  if (alookup l key).isSome then aset l key v else l ++ [(key, v)]

/-- Error taxonomy of the gate, with the `HTTPException` status codes the
source raises. -/
inductive SecError where
  | unauthorized
  | forbidden
  | rateLimited
deriving DecidableEq, Repr

def SecError.statusCode : SecError → Nat
  | .unauthorized => 401
  | .forbidden => 403
  | .rateLimited => 429

/-- State of a `SecurityManager` instance, with the constructor's
configuration (security_manager.py lines 19-39). -/
structure SecurityManager where
  api_keys : List (String × String) :=
    [("n8n_main", "sk_codealchemy_n8n_2025"),
     ("n8n_monitoring", "sk_codealchemy_monitor_2025"),
     ("n8n_automation", "sk_codealchemy_auto_2025")]
  rate_limit_window : Int := 60
  rate_limit_requests : Nat := 100
  request_counts : List (String × List Int) := []

/-- Embedding of `validate_api_key` (lines 41-53): reject a key not among
the stored values with a 401, otherwise return the first key name storing
that value (`next(name for name, key in ... if key == api_key)`). -/
def validateApiKey (s : SecurityManager) (api_key : String) :
    Except SecError String :=
  match s.api_keys.find? (fun p => p.2 = api_key) with
  | some p => .ok p.1
  | none => .error .unauthorized

/-- Embedding of `check_rate_limit` (lines 55-80): prune the key's window to
the timestamps younger than `rate_limit_window`, store the pruned window,
reject with a 429 if it already holds `rate_limit_requests` entries, and
otherwise record the current instant. Returns the error (if any) together
with the mutated state. -/
def checkRateLimit (s : SecurityManager) (api_key : String) (now : Int) :
    Option SecError × SecurityManager :=
  let w := (alookup s.request_counts api_key).getD []
  let pruned := w.filter (fun t => now - t < s.rate_limit_window)
  let s1 := { s with request_counts := astore s.request_counts api_key pruned }
  if s.rate_limit_requests ≤ pruned.length then
    (some .rateLimited, s1)
  else
    (none,
     { s1 with
       request_counts := astore s1.request_counts api_key (pruned ++ [now]) })

/-- Sequential submission of requests for one key at the given instants;
returns the final state and, per request, whether it was accepted. -/
def applyRequests (s : SecurityManager) (api_key : String) :
    List Int → SecurityManager × List Bool
  | [] => (s, [])
  | now :: rest =>
    let step := checkRateLimit s api_key now
    let further := applyRequests step.2 api_key rest
    (further.1, step.1.isNone :: further.2)

/-- Embedding of `rotate_api_key` (lines 129-139): report `false` for an
unknown key name, otherwise store the SHA-256 hex digest of the new key in
place of the key. -/
def rotateApiKey (s : SecurityManager) (key_name new_key : String) :
    Bool × SecurityManager :=
  if (alookup s.api_keys key_name).isSome then
    (true, { s with api_keys := aset s.api_keys key_name (sha256hex new_key) })
  else
    (false, s)

/-! ## Agent manager

Embedding of `AgentManager` (agent_manager.py) over the `BaseAgent` contract
(base/agent_interface.py). An agent's `execute` is the external
collaborator; a raising execution is `Except.error` carrying `str(e)`.
`update_status` also fires a best-effort status webhook on a throwaway
handler inside `try/except pass` (`_report_status_change`); that side
channel touches no state of this slice and is embedded as a no-op. -/

inductive AgentStatus where
  | idle
  | running
  | completed
  | failed
  | disabled
deriving DecidableEq, Repr

/-- The `.value` strings of the `AgentStatus` enum. -/
def AgentStatus.value : AgentStatus → String
  | .idle => "idle"
  | .running => "running"
  | .completed => "completed"
  | .failed => "failed"
  | .disabled => "disabled"

/-- The `processing_stats` dict of a `BaseAgent` (agent_interface.py lines
39-44); times in microseconds. -/
structure ProcessingStats where
  tasks_completed : Nat := 0
  tasks_failed : Nat := 0
  total_processing_time : Nat := 0
  last_task_time : Option Nat := none
deriving DecidableEq, Repr

/-- Parameter bag passed to an agent. -/
abbrev Params := List (String × String)

/-- Result dictionary returned by an agent's `execute`: the keys this slice
reads (`success`, and `status`/`message`/`error` for the history summary). -/
structure AgentResult where
  success : Bool
  error : Option String := none
  status : Option String := none
  message : Option String := none
deriving DecidableEq, Repr

/-- A workflow trigger entry (`add_workflow_trigger`). -/
structure Trigger where
  name : String
  config : List (String × String)
  added_at : Timestamp
deriving DecidableEq, Repr

/-- A registered agent: the `BaseAgent` mutable fields plus its
`validate_parameters` and `execute` behaviour. -/
structure Agent where
  enabled : Bool := true
  status : AgentStatus := .idle
  last_activity : Option Timestamp := none
  processing_stats : ProcessingStats := {}
  workflow_triggers : List Trigger := []
  validate_parameters : Params → Bool := fun _ => true
  execute : Params → Except String AgentResult

/-- An execution-history entry (`_add_to_history`, lines 262-272), with the
`result_summary` sub-dict flattened into the three fields it holds. -/
structure HistoryEntry where
  agent_name : String
  timestamp : Timestamp
  execution_time : Nat
  success : Bool
  result_status : String
  result_message : String
  result_error : String
deriving DecidableEq, Repr

/-- State of the `AgentManager`. `appends_log` and `exec_invocations` are
ghost fields: the agent names passed to `_add_to_history` since process
start (never evicted, unlike the capped `agent_status_history`), and the
number of times `agent.execute` has been invoked. -/
structure AgentManager where
  agents : List (String × Agent)
  agent_status_history : List HistoryEntry := []
  max_history : Nat := 1000
  appends_log : List String := []
  exec_invocations : Nat := 0

/-- Result dictionary of the manager's operations (`execute_agent`,
`enable_agent`, …): the keys the slice and claims read. -/
structure ExecResult where
  success : Bool
  error : Option String := none
  available_agents : Option (List String) := none
  agent_name : Option String := none
  execution_time : Option Nat := none
  timestamp : Option Timestamp := none
  agent_status : Option String := none
  status : Option String := none
  message : Option String := none
deriving DecidableEq, Repr

/-- The `history_entry` dict built by `_add_to_history` (lines 262-272). -/
def mkHistoryEntry (agent_name : String) (result : AgentResult)
    (execution_time : Nat) (now : Timestamp) : HistoryEntry :=
  { agent_name := agent_name, timestamp := now,
    execution_time := execution_time, success := result.success,
    result_status := result.status.getD "unknown",
    result_message := result.message.getD "",
    result_error := result.error.getD "" }

/-- Embedding of `_add_to_history` (lines 260-278): build the entry, append
it to the capped history, and record the append in the ghost log. -/
def addToHistory (m : AgentManager) (agent_name : String)
    (result : AgentResult) (execution_time : Nat) (now : Timestamp) :
    AgentManager :=
  { m with
    agent_status_history := pushCap m.max_history m.agent_status_history
      (mkHistoryEntry agent_name result execution_time now),
    appends_log := m.appends_log ++ [agent_name] }

/-- Statistics update of `execute_agent` lines 99-108: bump the counter
selected by the result's `success` flag, accumulate the processing time and
record the last task time. -/
def updatedStats (stats0 : ProcessingStats) (success : Bool)
    (execution_time : Nat) : ProcessingStats :=
  let stats1 :=
    if success then
      { stats0 with tasks_completed := stats0.tasks_completed + 1 }
    else
      { stats0 with tasks_failed := stats0.tasks_failed + 1 }
  { stats1 with
    total_processing_time := stats1.total_processing_time + execution_time,
    last_task_time := some execution_time }

/-- Embedding of `execute_agent` (lines 66-136). The wall-clock inputs are
the measured `execution_time` and the instant `now`; the only fallible call
inside the `try` block is `agent.execute(parameters)`, so the `except`
branch (lines 124-136) is taken exactly when `execute` raises: it marks the
agent failed and returns the failure dict, leaving `processing_stats` and
the history untouched. -/
def executeAgent (m : AgentManager) (agent_name : String)
    (parameters : Params) (execution_time : Nat) (now : Timestamp) :
    ExecResult × AgentManager :=
  match alookup m.agents agent_name with
  | none =>
    ({ success := false,
       error := some ("Agent " ++ agent_name ++ " not found"),
       available_agents := some (m.agents.map (·.1)) }, m)
  | some agent =>
    if agent.enabled = false then
      ({ success := false,
         error := some ("Agent " ++ agent_name ++ " is disabled") }, m)
    else if agent.validate_parameters parameters = false then
      ({ success := false,
         error := some ("Invalid parameters for agent " ++ agent_name) }, m)
    else
      let m1 : AgentManager :=
        { m with
          agents := aset m.agents agent_name
            { agent with status := .running, last_activity := some now },
          exec_invocations := m.exec_invocations + 1 }
      match agent.execute parameters with
      | .error e =>
        ({ success := false, error := some e, agent_name := some agent_name,
           timestamp := some now },
         { m1 with
           agents := aset m1.agents agent_name
             { agent with status := .failed, last_activity := some now } })
      | .ok result =>
        let newStatus : AgentStatus :=
          if result.success then .completed else .failed
        let m2 : AgentManager :=
          { m1 with
            agents := aset m1.agents agent_name
              { agent with status := newStatus,
                           processing_stats :=
                             updatedStats agent.processing_stats result.success
                               execution_time,
                           last_activity := some now } }
        let m3 := addToHistory m2 agent_name result execution_time now
        ({ success := result.success, error := result.error,
           status := result.status, message := result.message,
           agent_name := some agent_name,
           execution_time := some execution_time, timestamp := some now,
           agent_status := some newStatus.value }, m3)

/-- Embedding of `enable_agent` (lines 196-214). -/
def enableAgent (m : AgentManager) (agent_name : String) (now : Timestamp) :
    ExecResult × AgentManager :=
  match alookup m.agents agent_name with
  | none =>
    ({ success := false,
       error := some ("Agent " ++ agent_name ++ " not found") }, m)
  | some agent =>
    ({ success := true,
       message := some ("Agent " ++ agent_name ++ " enabled") },
     { m with
       agents := aset m.agents agent_name
         { agent with enabled := true, status := .idle,
                      last_activity := some now } })

/-- Embedding of `disable_agent` (lines 216-234). -/
def disableAgent (m : AgentManager) (agent_name : String) (now : Timestamp) :
    ExecResult × AgentManager :=
  match alookup m.agents agent_name with
  | none =>
    ({ success := false,
       error := some ("Agent " ++ agent_name ++ " not found") }, m)
  | some agent =>
    ({ success := true,
       message := some ("Agent " ++ agent_name ++ " disabled") },
     { m with
       agents := aset m.agents agent_name
         { agent with enabled := false, status := .disabled,
                      last_activity := some now } })

/-- Embedding of `add_workflow_trigger` (lines 236-258). -/
def addWorkflowTrigger (m : AgentManager) (agent_name : String)
    (trig : Trigger) : ExecResult × AgentManager :=
  match alookup m.agents agent_name with
  | none =>
    ({ success := false,
       error := some ("Agent " ++ agent_name ++ " not found") }, m)
  | some agent =>
    ({ success := true,
       message := some ("Workflow trigger added to " ++ agent_name) },
     { m with
       agents := aset m.agents agent_name
         { agent with workflow_triggers := agent.workflow_triggers ++ [trig] } })

/-- The mutating operations of the manager, for reachable-state reasoning. -/
inductive MOp where
  | exec (agent_name : String) (parameters : Params)
      (execution_time : Nat) (now : Timestamp)
  | enable (agent_name : String) (now : Timestamp)
  | disable (agent_name : String) (now : Timestamp)
  | addTrigger (agent_name : String) (trig : Trigger)

def applyOp (m : AgentManager) : MOp → AgentManager
  | .exec name p t now => (executeAgent m name p t now).2
  | .enable name now => (enableAgent m name now).2
  | .disable name now => (disableAgent m name now).2
  | .addTrigger name trig => (addWorkflowTrigger m name trig).2

/-! ## Derived state-machine notions used by the claims -/

/-- The invariant of the data model: each registered agent's
`completed + failed` equals the number of execution-history entries recorded
for its name since process start. The count is taken over the ghost
`appends_log` (every `_add_to_history` call, before eviction), which is the
"recorded since process start (modulo eviction)" reading of the claim. -/
def countsMatchHistory (m : AgentManager) : Prop :=
  ∀ p ∈ m.agents,
    p.2.processing_stats.tasks_completed + p.2.processing_stats.tasks_failed =
      m.appends_log.count p.1

/-- One webhook submission input: declared type, payload, submission time. -/
structure SubmitInput where
  wtype : Option String
  payload : List (String × String)
  now : Timestamp
deriving DecidableEq, Repr

/-- Sequential webhook submissions. -/
def submitSeq (h : WebhookHandler) : List SubmitInput → WebhookHandler
  | [] => h
  | x :: rest => submitSeq (processWebhook h x.wtype x.payload x.now).2 rest

/-- The records that a submission sequence creates, given the first ghost
serial to be assigned. -/
def recordsFrom (serial0 : Nat) : List SubmitInput → List WebhookRecord
  | [] => []
  | x :: rest =>
    { wtype := x.wtype, payload := x.payload, received_at := some x.now,
      processed := false, webhook_id := generateWebhookId x.now,
      serial := serial0 } :: recordsFrom (serial0 + 1) rest

/-- One `_add_to_history` call input. -/
structure HistCall where
  agent_name : String
  result : AgentResult
  execution_time : Nat
  now : Timestamp
deriving DecidableEq, Repr

/-- Sequential `_add_to_history` calls. -/
def addSeq (m : AgentManager) : List HistCall → AgentManager
  | [] => m
  | c :: rest =>
    addSeq (addToHistory m c.agent_name c.result c.execution_time c.now) rest

/-! ## Concrete fixtures for witnesses and counterexamples -/

def ts0 : Timestamp := ⟨2025, 10, 12, 9, 30, 0, 0⟩

def ts1 : Timestamp := ⟨2025, 10, 12, 9, 30, 0, 1⟩

/-- A registered agent whose execution raises `"boom"`. -/
def boomAgent : Agent := { execute := fun _ => .error "boom" }

/-- A stub agent whose execution returns `{"success": true}`. -/
def okStubAgent : Agent := { execute := fun _ => .ok { success := true } }

/-- A disabled spy agent: were its execute invoked, it would report success. -/
def spyDisabledAgent : Agent :=
  { enabled := false, execute := fun _ => .ok { success := true } }

def mgrBoom : AgentManager := { agents := [("file_organization", boomAgent)] }

def mgrOk : AgentManager := { agents := [("file_organization", okStubAgent)] }

def mgrDisabled : AgentManager :=
  { agents := [("file_organization", spyDisabledAgent)] }

/-- Handlers identical to the repository's except that the system-alert
handler raises. -/
def throwingHandlers : Handlers :=
  { sourceHandlers with system_alert := fun _ => .error "alert handler crashed" }

/-- A handler state holding two queued submissions: a system-alert webhook
followed by a generic one. -/
def whTwo : WebhookHandler :=
  (processWebhook (processWebhook {} (some "system_alert") [] ts0).2
    (some "generic") [] ts1).2

/-- A security-manager state as constructed (`SecurityManager.__init__`). -/
def secInit : SecurityManager := {}

/-! ## Lemmas about the bounded history buffer and webhook ids -/

theorem pushCap_length_le (cap : Nat) (l : List α) (x : α)
    (h : l.length ≤ cap) : (pushCap cap l x).length ≤ cap := by
  rw [pushCap]
  split
  · rename_i hc; simp at hc ⊢; omega
  · rename_i hc; simp at hc ⊢; omega

theorem foldl_pushCap_length_le (cap : Nat) (xs : List α) (l : List α)
    (h : l.length ≤ cap) : (xs.foldl (pushCap cap) l).length ≤ cap := by
  induction xs generalizing l with
  | nil => exact h
  | cons x xs ih => exact ih _ (pushCap_length_le cap l x h)

/-- Folding `pushCap` over a whole submission sequence keeps exactly the
most recent `cap` elements: the result is `(l ++ xs)` with the oldest
overflow dropped from the front. -/
theorem foldl_pushCap_eq_drop (cap : Nat) (xs : List α) (l : List α)
    (h : l.length ≤ cap) :
    xs.foldl (pushCap cap) l = (l ++ xs).drop (l.length + xs.length - cap) := by
  induction xs generalizing l with
  | nil =>
    simp only [List.foldl_nil, List.append_nil, List.length_nil, Nat.add_zero]
    rw [Nat.sub_eq_zero_of_le h, List.drop_zero]
  | cons x xs ih =>
    have hstep : pushCap cap l x = (l ++ [x]).drop (l.length + 1 - cap) := by
      rw [pushCap]
      split
      · rename_i hc; simp at hc; congr 1; omega
      · rename_i hc; simp at hc
        have h0 : l.length + 1 - cap = 0 := by omega
        rw [h0, List.drop_zero]
    have hlen : (pushCap cap l x).length ≤ cap := pushCap_length_le cap l x h
    rw [List.foldl_cons, ih _ hlen, hstep]
    rw [List.length_drop]
    rw [← List.drop_append_of_le_length (by simp)]
    rw [List.drop_drop]
    have harr : (l ++ [x]) ++ xs = l ++ x :: xs := by simp
    rw [harr]
    congr 1
    simp only [List.length_append, List.length_cons, List.length_nil]
    omega

theorem digitsPad_length (w n : Nat) : (digitsPad w n).length = w := by
  induction w generalizing n with
  | zero => rfl
  | succ w ih => simp [digitsPad, ih]

theorem toNat_digitChar (d : Nat) (h : d < 10) :
    (Char.ofNat (48 + d)).toNat = 48 + d := by
  interval_cases d <;> decide

theorem valDigits_append_digit (l : List Char) (d : Nat) (h : d < 10) :
    valDigits (l ++ [Char.ofNat (48 + d)]) = valDigits l * 10 + d := by
  unfold valDigits
  rw [List.foldl_append]
  simp [toNat_digitChar d h]

theorem valDigits_digitsPad (w n : Nat) (h : n < 10 ^ w) :
    valDigits (digitsPad w n) = n := by
  induction w generalizing n with
  | zero =>
    simp [digitsPad, valDigits]
    omega
  | succ w ih =>
    have hd : n % 10 < 10 := Nat.mod_lt _ (by omega)
    have hq : n / 10 < 10 ^ w := by
      rw [Nat.div_lt_iff_lt_mul (by omega)]
      calc n < 10 ^ (w + 1) := h
        _ = 10 ^ w * 10 := by ring
    rw [digitsPad, valDigits_append_digit _ _ hd, ih _ hq]
    omega

theorem digitsPad_inj (w n n2 : Nat) (hn : n < 10 ^ w) (hn2 : n2 < 10 ^ w)
    (h : digitsPad w n = digitsPad w n2) : n = n2 := by
  have hv := valDigits_digitsPad w n hn
  rw [h, valDigits_digitsPad w n2 hn2] at hv
  omega

/-- Distinct calendar instants (within `strftime` field ranges) produce
distinct webhook ids: every component prints in a fixed width, so the
id characters determine every field. -/
theorem webhookIdChars_inj (t t2 : Timestamp) (hv : t.valid) (hv2 : t2.valid)
    (h : webhookIdChars t = webhookIdChars t2) : t = t2 := by
  obtain ⟨hy, hmo, hd, hh, hmi, hs, hus⟩ := hv
  obtain ⟨hy2, hmo2, hd2, hh2, hmi2, hs2, hus2⟩ := hv2
  unfold webhookIdChars at h
  obtain ⟨h, hf⟩ := List.append_inj' h (by rw [digitsPad_length, digitsPad_length])
  obtain ⟨h, -⟩ := List.append_inj' h rfl
  obtain ⟨h, hsec⟩ := List.append_inj' h (by rw [digitsPad_length, digitsPad_length])
  obtain ⟨h, hmin⟩ := List.append_inj' h (by rw [digitsPad_length, digitsPad_length])
  obtain ⟨h, hhr⟩ := List.append_inj' h (by rw [digitsPad_length, digitsPad_length])
  obtain ⟨h, -⟩ := List.append_inj' h rfl
  obtain ⟨h, hday⟩ := List.append_inj' h (by rw [digitsPad_length, digitsPad_length])
  obtain ⟨h, hmon⟩ := List.append_inj' h (by rw [digitsPad_length, digitsPad_length])
  obtain ⟨-, hyr⟩ := List.append_inj' h (by rw [digitsPad_length, digitsPad_length])
  have e1 := digitsPad_inj 4 _ _ (by norm_num; omega) (by norm_num; omega) hyr
  have e2 := digitsPad_inj 2 _ _ (by norm_num; omega) (by norm_num; omega) hmon
  have e3 := digitsPad_inj 2 _ _ (by norm_num; omega) (by norm_num; omega) hday
  have e4 := digitsPad_inj 2 _ _ (by norm_num; omega) (by norm_num; omega) hhr
  have e5 := digitsPad_inj 2 _ _ (by norm_num; omega) (by norm_num; omega) hmin
  have e6 := digitsPad_inj 2 _ _ (by norm_num; omega) (by norm_num; omega) hsec
  have e7 := digitsPad_inj 6 _ _ (by norm_num; omega) (by norm_num; omega) hf
  cases t; cases t2
  simp_all

theorem generateWebhookId_inj (t t2 : Timestamp) (hv : t.valid) (hv2 : t2.valid)
    (h : generateWebhookId t = generateWebhookId t2) : t = t2 :=
  webhookIdChars_inj t t2 hv hv2 (congrArg String.data h)

/-! ## Association-list lemmas -/

theorem alookup_mem {l : List (String × β)} {k : String} {v : β}
    (h : alookup l k = some v) : (k, v) ∈ l := by
  induction l with
  | nil => simp [alookup] at h
  | cons p rest ih =>
    rw [alookup] at h
    split at h
    · rename_i he
      cases p
      simp at he ⊢
      simp at h
      simp [he, h]
    · simp [ih h]

theorem alookup_none_of_not_mem_keys {l : List (String × β)} {k : String}
    (h : k ∉ l.map Prod.fst) : alookup l k = none := by
  induction l with
  | nil => rfl
  | cons p rest ih =>
    rw [List.map_cons, List.mem_cons] at h
    push_neg at h
    rw [alookup]
    split
    · rename_i he; exact absurd he.symm h.1
    · exact ih h.2

theorem aset_aset (l : List (String × β)) (k : String) (v v2 : β) :
    aset (aset l k v) k v2 = aset l k v2 := by
  induction l with
  | nil => rfl
  | cons p rest ih =>
    cases p with
    | mk pk pv =>
      rw [aset]
      split <;> rw [aset, aset] <;> split <;> simp_all

theorem alookup_aset (l : List (String × β)) (k : String) (v : β) :
    alookup (aset l k v) k = (alookup l k).map (fun _ => v) := by
  induction l with
  | nil => rfl
  | cons p rest ih =>
    cases p with
    | mk pk pv =>
      rw [aset]
      split <;> rw [alookup, alookup] <;> split <;> simp_all

theorem alookup_aset_ne (l : List (String × β)) (k k2 : String) (v : β)
    (h : k ≠ k2) : alookup (aset l k2 v) k = alookup l k := by
  induction l with
  | nil => rfl
  | cons p rest ih =>
    cases p with
    | mk pk pv =>
      rw [aset]
      split <;> rw [alookup, alookup] <;> split <;> simp_all

theorem mem_aset {l : List (String × β)} {k : String} {v : β}
    {p : String × β} (h : p ∈ aset l k v) :
    (p ∈ l ∧ p.1 ≠ k) ∨ (p.1 = k ∧ p.2 = v ∧ ∃ w, (k, w) ∈ l) := by
  induction l with
  | nil => simp [aset] at h
  | cons q rest ih =>
    cases q with
    | mk qk qv =>
      rw [aset] at h
      split at h
      · rename_i he
        subst he
        rcases List.mem_cons.mp h with h1 | h2
        · right
          subst h1
          exact ⟨rfl, rfl, qv, by simp⟩
        · rcases ih h2 with ⟨hm, hne⟩ | ⟨h1, h2, w, hw⟩
          · exact Or.inl ⟨List.mem_cons_of_mem _ hm, hne⟩
          · exact Or.inr ⟨h1, h2, w, List.mem_cons_of_mem _ hw⟩
      · rename_i he
        rcases List.mem_cons.mp h with h1 | h2
        · subst h1
          exact Or.inl ⟨List.mem_cons_self _ _, fun hc => he (by simp [← hc])⟩
        · rcases ih h2 with ⟨hm, hne⟩ | ⟨h1, h2, w, hw⟩
          · exact Or.inl ⟨List.mem_cons_of_mem _ hm, hne⟩
          · exact Or.inr ⟨h1, h2, w, List.mem_cons_of_mem _ hw⟩

theorem aset_of_alookup_none {l : List (String × β)} {k : String} (v : β)
    (h : alookup l k = none) : aset l k v = l := by
  induction l with
  | nil => rfl
  | cons p rest ih =>
    cases p with
    | mk pk pv =>
      rw [alookup] at h
      rw [aset]
      split
      · rename_i he; simp [he] at h
      · rename_i he
        have := ih (by simpa [he] using h)
        simp [this]

theorem aset_append (a b : List (String × β)) (k : String) (v : β) :
    aset (a ++ b) k v = aset a k v ++ aset b k v := by
  induction a with
  | nil => rfl
  | cons p rest ih =>
    cases p with
    | mk pk pv =>
      simp only [List.cons_append, aset]
      split <;> simp [ih]

theorem alookup_append_of_none {a : List (String × β)} (b : List (String × β))
    (k : String) (h : alookup a k = none) : alookup (a ++ b) k = alookup b k := by
  induction a with
  | nil => rfl
  | cons p rest ih =>
    cases p with
    | mk pk pv =>
      rw [alookup] at h
      rw [List.cons_append, alookup]
      split at h
      · simp at h
      · rename_i he
        rw [if_neg he]
        exact ih h

theorem alookup_astore_self (l : List (String × β)) (k : String) (v : β) :
    alookup (astore l k v) k = some v := by
  rw [astore]
  split
  · rename_i hs
    rw [alookup_aset]
    obtain ⟨w, hw⟩ := Option.isSome_iff_exists.mp hs
    rw [hw]
    rfl
  · rename_i hs
    have hnone : alookup l k = none := Option.not_isSome_iff_eq_none.mp hs
    rw [alookup_append_of_none _ _ hnone]
    simp [alookup]

theorem astore_astore (l : List (String × β)) (k : String) (v v2 : β) :
    astore (astore l k v) k v2 = astore l k v2 := by
  by_cases hl : (alookup l k).isSome
  · obtain ⟨w, hw⟩ := Option.isSome_iff_exists.mp hl
    have hinner : astore l k v = aset l k v := by rw [astore, if_pos hl]
    rw [hinner, astore, if_pos (by rw [alookup_aset, hw]; rfl)]
    rw [aset_aset, astore, if_pos hl]
  · have hnone : alookup l k = none := Option.not_isSome_iff_eq_none.mp hl
    have hinner : astore l k v = l ++ [(k, v)] := by rw [astore, if_neg hl]
    rw [hinner, astore,
      if_pos (by rw [alookup_append_of_none _ _ hnone]; simp [alookup])]
    rw [aset_append, aset_of_alookup_none _ hnone]
    rw [astore, if_neg hl]
    simp [aset]

/-! ## Path characterizations of `execute_agent` -/

/-- Exception path of `execute_agent`: a registered, enabled agent passing
validation whose `execute` raises. The `except` block returns the failure
dict and marks the agent failed; stats and history are untouched. -/
theorem executeAgent_raise_eq (m : AgentManager) (name : String) (a : Agent)
    (p : Params) (e : String) (t : Nat) (now : Timestamp)
    (ha : alookup m.agents name = some a) (hen : a.enabled = true)
    (hval : a.validate_parameters p = true) (hex : a.execute p = .error e) :
    executeAgent m name p t now =
      ({ success := false, error := some e, agent_name := some name,
         timestamp := some now },
       { m with
         agents := aset m.agents name
           { a with status := .failed, last_activity := some now },
         exec_invocations := m.exec_invocations + 1 }) := by
  simp only [executeAgent, ha, hen, hval, hex, aset_aset]
  simp

/-- Normal path of `execute_agent`: a registered, enabled agent passing
validation whose `execute` returns a result dict. -/
theorem executeAgent_ok_eq (m : AgentManager) (name : String) (a : Agent)
    (p : Params) (r : AgentResult) (t : Nat) (now : Timestamp)
    (ha : alookup m.agents name = some a) (hen : a.enabled = true)
    (hval : a.validate_parameters p = true) (hex : a.execute p = .ok r) :
    executeAgent m name p t now =
      ({ success := r.success, error := r.error, status := r.status,
         message := r.message, agent_name := some name,
         execution_time := some t, timestamp := some now,
         agent_status :=
           some (if r.success then AgentStatus.completed else .failed).value },
       { m with
         agents := aset m.agents name
           { a with
             status := if r.success then .completed else .failed,
             processing_stats := updatedStats a.processing_stats r.success t,
             last_activity := some now },
         exec_invocations := m.exec_invocations + 1,
         agent_status_history := pushCap m.max_history m.agent_status_history
           (mkHistoryEntry name r t now),
         appends_log := m.appends_log ++ [name] }) := by
  simp only [executeAgent, ha, hen, hval, hex, addToHistory, aset_aset]
  simp

/-! ## C1 — exception during dispatch -/

/-- C1 (counterexample to the claim as stated): for the registered, enabled
agent `file_organization` of `mgrBoom`, whose execute raises `"boom"`, the
dispatch returns `success=false` carrying the message, but the agent's
`tasks_failed` counter is NOT incremented by 1 — the `except` block of
`execute_agent` returns without touching `processing_stats`. -/
theorem executeAgent_raise_tasks_failed_not_incremented :
    alookup mgrBoom.agents "file_organization" = some boomAgent ∧
    boomAgent.enabled = true ∧
    boomAgent.execute [] = .error "boom" ∧
    (executeAgent mgrBoom "file_organization" [] 5 ts0).1.success = false ∧
    (executeAgent mgrBoom "file_organization" [] 5 ts0).1.error = some "boom" ∧
    ¬ ((alookup (executeAgent mgrBoom "file_organization" [] 5 ts0).2.agents
          "file_organization").map (fun b => b.processing_stats.tasks_failed) =
        some (boomAgent.processing_stats.tasks_failed + 1)) :=
  ⟨rfl, rfl, rfl, rfl, rfl, by decide⟩

/-- C1 (amended): for every registered, enabled agent passing validation
whose execute raises, `execute_agent` returns a result with `success=false`
and `error` carrying the exception's message, and no unhandled exception
reaches the caller (the embedding of the call is total); however the
exception path leaves the agent's `processing_stats` — both `tasks_failed`
and `tasks_completed` — entirely unchanged. -/
theorem executeAgent_raise_converts_to_failure_result (m : AgentManager)
    (name : String) (a : Agent) (p : Params) (e : String) (t : Nat)
    (now : Timestamp) (ha : alookup m.agents name = some a)
    (hen : a.enabled = true) (hval : a.validate_parameters p = true)
    (hex : a.execute p = .error e) :
    (executeAgent m name p t now).1.success = false ∧
    (executeAgent m name p t now).1.error = some e ∧
    (alookup (executeAgent m name p t now).2.agents name).map
        (fun b => b.processing_stats) = some a.processing_stats := by
  rw [executeAgent_raise_eq m name a p e t now ha hen hval hex]
  refine ⟨rfl, rfl, ?_⟩
  rw [alookup_aset, ha]
  rfl

/-- Witness for C1 (amended) at the concrete raising agent. -/
theorem executeAgent_raise_converts_to_failure_result_witness :
    (executeAgent mgrBoom "file_organization" [] 5 ts0).1.success = false ∧
    (executeAgent mgrBoom "file_organization" [] 5 ts0).1.error = some "boom" ∧
    (alookup (executeAgent mgrBoom "file_organization" [] 5 ts0).2.agents
        "file_organization").map (fun b => b.processing_stats) =
      some boomAgent.processing_stats :=
  executeAgent_raise_converts_to_failure_result mgrBoom "file_organization"
    boomAgent [] "boom" 5 ts0 rfl rfl rfl rfl

/-! ## C2 — one descriptor mutation and one history append per dispatch -/

/-- C2 (counterexample to the claim as stated): a dispatch during which the
agent's execution raises appends NO execution-history entry (the history
length is unchanged rather than incremented by one). -/
theorem executeAgent_raise_appends_no_history :
    boomAgent.execute [] = .error "boom" ∧
    (executeAgent mgrBoom "file_organization" [] 5
        ts0).2.agent_status_history.length =
      mgrBoom.agent_status_history.length ∧
    ¬ ((executeAgent mgrBoom "file_organization" [] 5
          ts0).2.agent_status_history.length =
        mgrBoom.agent_status_history.length + 1) :=
  ⟨rfl, rfl, by decide⟩

/-- C2 (amended): a dispatch to a registered, enabled agent passing
validation appends exactly one `ExecutionHistoryEntry` (through the capped
buffer) and records exactly one append in the ghost log when the execution
returns normally; when the execution raises, it appends nothing (history
and ghost log unchanged). In both cases only the dispatched agent's
descriptor is mutated (lookups of every other name are unchanged). -/
theorem executeAgent_history_append_counts (m : AgentManager) (name : String)
    (a : Agent) (p : Params) (t : Nat) (now : Timestamp)
    (ha : alookup m.agents name = some a) (hen : a.enabled = true)
    (hval : a.validate_parameters p = true) :
    (∀ r, a.execute p = .ok r →
      (executeAgent m name p t now).2.agent_status_history =
        pushCap m.max_history m.agent_status_history
          (mkHistoryEntry name r t now) ∧
      (executeAgent m name p t now).2.appends_log = m.appends_log ++ [name]) ∧
    (∀ e, a.execute p = .error e →
      (executeAgent m name p t now).2.agent_status_history =
        m.agent_status_history ∧
      (executeAgent m name p t now).2.appends_log = m.appends_log) ∧
    (∀ other, other ≠ name →
      alookup (executeAgent m name p t now).2.agents other =
        alookup m.agents other) := by
  refine ⟨?_, ?_, ?_⟩
  · intro r hr
    rw [executeAgent_ok_eq m name a p r t now ha hen hval hr]
    exact ⟨rfl, rfl⟩
  · intro e he
    rw [executeAgent_raise_eq m name a p e t now ha hen hval he]
    exact ⟨rfl, rfl⟩
  · intro other hne
    cases hex : a.execute p with
    | ok r =>
      rw [executeAgent_ok_eq m name a p r t now ha hen hval hex]
      exact alookup_aset_ne _ _ _ _ hne
    | error e =>
      rw [executeAgent_raise_eq m name a p e t now ha hen hval hex]
      exact alookup_aset_ne _ _ _ _ hne

/-- Witness for C2 (amended): the normal path at the concrete stub agent
appends exactly the built entry. -/
theorem executeAgent_history_append_counts_witness :
    (executeAgent mgrOk "file_organization" [] 5
        ts0).2.agent_status_history =
      pushCap mgrOk.max_history mgrOk.agent_status_history
        (mkHistoryEntry "file_organization" { success := true } 5 ts0) ∧
    (executeAgent mgrOk "file_organization" [] 5 ts0).2.appends_log =
      mgrOk.appends_log ++ ["file_organization"] :=
  (executeAgent_history_append_counts mgrOk "file_organization" okStubAgent
    [] 5 ts0 rfl rfl rfl).1 { success := true } rfl

/-! ## C7 — dispatch to a disabled agent -/

/-- C7 (confirmed): dispatching to a registered agent whose enabled flag is
false fails with the Disabled error (`success=false`, "is disabled"
message) and returns the manager completely unchanged — including the ghost
`exec_invocations` counter, so the underlying agent's execute method is
never invoked. -/
theorem executeAgent_disabled_fails_without_invoking (m : AgentManager)
    (name : String) (a : Agent) (p : Params) (t : Nat) (now : Timestamp)
    (ha : alookup m.agents name = some a) (hd : a.enabled = false) :
    executeAgent m name p t now =
      ({ success := false,
         error := some ("Agent " ++ name ++ " is disabled") }, m) := by
  simp only [executeAgent, ha, hd]
  simp

/-- Witness for C7 at the concrete disabled spy agent. -/
theorem executeAgent_disabled_fails_without_invoking_witness :
    executeAgent mgrDisabled "file_organization" [] 5 ts0 =
      ({ success := false,
         error := some ("Agent " ++ "file_organization" ++ " is disabled") },
       mgrDisabled) :=
  executeAgent_disabled_fails_without_invoking mgrDisabled "file_organization"
    spyDisabledAgent [] 5 ts0 rfl rfl

/-! ## C3 — completed+failed matches recorded history -/

theorem updatedStats_sum (stats0 : ProcessingStats) (success : Bool) (t : Nat) :
    (updatedStats stats0 success t).tasks_completed +
      (updatedStats stats0 success t).tasks_failed =
    stats0.tasks_completed + stats0.tasks_failed + 1 := by
  cases success <;> simp [updatedStats] <;> omega

theorem countsMatch_applyOp (m : AgentManager) (op : MOp)
    (h : countsMatchHistory m) : countsMatchHistory (applyOp m op) := by
  cases op with
  | exec name p t now =>
    simp only [applyOp]
    cases hl : alookup m.agents name with
    | none =>
      have hm : (executeAgent m name p t now).2 = m := by
        simp [executeAgent, hl]
      rw [hm]; exact h
    | some a =>
      by_cases hen : a.enabled = false
      · have hm : (executeAgent m name p t now).2 = m := by
          simp [executeAgent, hl, hen]
        rw [hm]; exact h
      · have hen2 : a.enabled = true := by revert hen; cases a.enabled <;> simp
        by_cases hval : a.validate_parameters p = true
        · have hcnt := h (name, a) (alookup_mem hl)
          dsimp only at hcnt
          cases hex : a.execute p with
          | error e =>
            rw [executeAgent_raise_eq m name a p e t now hl hen2 hval hex]
            intro q hq
            rcases mem_aset hq with ⟨hqm, _⟩ | ⟨hq1, hq2, w, hw⟩
            · exact h q hqm
            · rw [hq1, hq2]; exact hcnt
          | ok r =>
            rw [executeAgent_ok_eq m name a p r t now hl hen2 hval hex]
            intro q hq
            rcases mem_aset hq with ⟨hqm, hqne⟩ | ⟨hq1, hq2, w, hw⟩
            · have hq0 := h q hqm
              simp only [List.count_append]
              have hz : List.count q.1 [name] = 0 := by
                simp [List.count_cons, List.count_nil]
                intro hc
                exact absurd hc.symm hqne
              omega
            · rw [hq1, hq2]
              simp only [List.count_append]
              have h1 : List.count name [name] = 1 := by simp
              have hupd := updatedStats_sum a.processing_stats r.success t
              omega
        · have hval2 : a.validate_parameters p = false := by
            revert hval; cases a.validate_parameters p <;> simp
          have hm : (executeAgent m name p t now).2 = m := by
            simp [executeAgent, hl, hen2, hval2]
          rw [hm]; exact h
  | enable name now =>
    simp only [applyOp]
    cases hl : alookup m.agents name with
    | none =>
      have hm : (enableAgent m name now).2 = m := by simp [enableAgent, hl]
      rw [hm]; exact h
    | some a =>
      have hm : (enableAgent m name now).2 =
          { m with
            agents := aset m.agents name
              { a with enabled := true, status := .idle,
                       last_activity := some now } } := by
        simp [enableAgent, hl]
      rw [hm]
      intro q hq
      rcases mem_aset hq with ⟨hqm, _⟩ | ⟨hq1, hq2, w, hw⟩
      · exact h q hqm
      · rw [hq1, hq2]; exact h (name, a) (alookup_mem hl)
  | disable name now =>
    simp only [applyOp]
    cases hl : alookup m.agents name with
    | none =>
      have hm : (disableAgent m name now).2 = m := by simp [disableAgent, hl]
      rw [hm]; exact h
    | some a =>
      have hm : (disableAgent m name now).2 =
          { m with
            agents := aset m.agents name
              { a with enabled := false, status := .disabled,
                       last_activity := some now } } := by
        simp [disableAgent, hl]
      rw [hm]
      intro q hq
      rcases mem_aset hq with ⟨hqm, _⟩ | ⟨hq1, hq2, w, hw⟩
      · exact h q hqm
      · rw [hq1, hq2]; exact h (name, a) (alookup_mem hl)
  | addTrigger name trig =>
    simp only [applyOp]
    cases hl : alookup m.agents name with
    | none =>
      have hm : (addWorkflowTrigger m name trig).2 = m := by
        simp [addWorkflowTrigger, hl]
      rw [hm]; exact h
    | some a =>
      have hm : (addWorkflowTrigger m name trig).2 =
          { m with
            agents := aset m.agents name
              { a with
                workflow_triggers := a.workflow_triggers ++ [trig] } } := by
        simp [addWorkflowTrigger, hl]
      rw [hm]
      intro q hq
      rcases mem_aset hq with ⟨hqm, _⟩ | ⟨hq1, hq2, w, hw⟩
      · exact h q hqm
      · rw [hq1, hq2]; exact h (name, a) (alookup_mem hl)

/-- C3 (confirmed): every mutating operation of the slice preserves the
invariant that an agent descriptor's `tasks_completed + tasks_failed`
equals the number of execution-history entries recorded for that agent name
since process start (counted before cap eviction, i.e. "modulo eviction"),
and consequently the invariant holds in every state reachable from a fresh
manager (zeroed counters, no recorded history) by any operation sequence. -/
theorem executionCounts_match_recorded_history :
    (∀ (m : AgentManager) (op : MOp), countsMatchHistory m →
       countsMatchHistory (applyOp m op)) ∧
    (∀ (m0 : AgentManager) (ops : List MOp),
       (∀ p ∈ m0.agents, p.2.processing_stats.tasks_completed = 0 ∧
          p.2.processing_stats.tasks_failed = 0) →
       m0.appends_log = [] →
       countsMatchHistory (ops.foldl applyOp m0)) := by
  refine ⟨countsMatch_applyOp, ?_⟩
  intro m0 ops hfresh hlog
  have h0 : countsMatchHistory m0 := by
    intro p hp
    rw [hlog, (hfresh p hp).1, (hfresh p hp).2]
    simp
  clear hfresh hlog
  induction ops generalizing m0 with
  | nil => exact h0
  | cons op rest ih =>
    exact ih (applyOp m0 op) (countsMatch_applyOp m0 op h0)

/-- Witness for C3 at a concrete fresh manager and a dispatch sequence that
exercises the success, failure-result and exception paths. -/
theorem executionCounts_match_recorded_history_witness :
    countsMatchHistory
      ([MOp.exec "file_organization" [] 5 ts0,
        MOp.disable "file_organization" ts0,
        MOp.exec "file_organization" [] 5 ts1].foldl applyOp mgrOk) :=
  executionCounts_match_recorded_history.2 mgrOk
    [MOp.exec "file_organization" [] 5 ts0,
     MOp.disable "file_organization" ts0,
     MOp.exec "file_organization" [] 5 ts1]
    (by intro p hp; cases hp with
        | head => exact ⟨rfl, rfl⟩
        | tail _ hmem => cases hmem)
    rfl

/-! ## C4 — sliding-window rate limiting -/

theorem map_range_decide_false (c n : Nat) (h : 100 ≤ c) :
    (List.range n).map (fun i => decide (c + i < 100)) =
      List.replicate n false := by
  apply List.eq_replicate_iff.mpr
  constructor
  · simp
  · intro x hx
    rw [List.mem_map] at hx
    obtain ⟨i, -, hi⟩ := hx
    rw [← hi]
    simp only [decide_eq_false_iff_not]
    omega

/-- Request outcomes along a submission run: as long as every instant of the
run lies within one window span of the current window timestamps and of the
other instants, the i-th request (0-based, counting from a current window of
`w` timestamps) is accepted exactly when `w.length + i < 100`. -/
theorem applyRequests_run (ts : List Int) (s : SecurityManager) (k : String)
    (w : List Int) (hwin : s.rate_limit_window = 60)
    (hmax : s.rate_limit_requests = 100)
    (hw : (alookup s.request_counts k).getD [] = w)
    (hspan : ∀ x ∈ ts, ∀ y ∈ w ++ ts, x - y < 60) :
    (applyRequests s k ts).2 =
      (List.range ts.length).map (fun i => decide (w.length + i < 100)) := by
  induction ts generalizing s w with
  | nil => rfl
  | cons now rest ih =>
    have hpr : List.filter (fun t => now - t < s.rate_limit_window) w = w := by
      apply List.filter_eq_self.mpr
      intro y hy
      have h := hspan now (by simp) y (List.mem_append_left _ hy)
      rw [hwin]
      simpa using h
    have hspanrest : ∀ x ∈ rest, ∀ y ∈ w ++ rest, x - y < 60 := by
      intro x hx y hy
      apply hspan x (by simp [hx]) y
      rcases List.mem_append.mp hy with h1 | h2
      · exact List.mem_append_left _ h1
      · exact List.mem_append_right _ (by simp [h2])
    have hspannew : ∀ x ∈ rest, ∀ y ∈ (w ++ [now]) ++ rest, x - y < 60 := by
      intro x hx y hy
      apply hspan x (by simp [hx]) y
      rcases List.mem_append.mp hy with h1 | h2
      · rcases List.mem_append.mp h1 with h3 | h4
        · exact List.mem_append_left _ h3
        · have h5 : y = now := by simpa using h4
          subst h5
          exact List.mem_append_right _ (by simp)
      · exact List.mem_append_right _ (by simp [h2])
    rw [List.length_cons, List.range_succ_eq_map, List.map_cons]
    by_cases hlen : 100 ≤ w.length
    · have hstep : checkRateLimit s k now =
          (some .rateLimited,
           { s with request_counts := astore s.request_counts k w }) := by
        rw [checkRateLimit, hw, hpr, if_pos (by rw [hmax]; exact hlen)]
      have htail := ih { s with request_counts := astore s.request_counts k w }
        w hwin hmax (by rw [alookup_astore_self]; rfl) hspanrest
      simp only [applyRequests, hstep, Option.isNone_some]
      rw [htail, map_range_decide_false _ _ hlen]
      have h0 : decide (w.length + 0 < 100) = false := by
        simp only [decide_eq_false_iff_not]
        omega
      rw [h0]
      congr 1
      symm
      apply List.eq_replicate_iff.mpr
      refine ⟨by simp, ?_⟩
      intro x hx
      simp only [List.map_map, List.mem_map, List.mem_range] at hx
      obtain ⟨i, -, hxe⟩ := hx
      rw [← hxe]
      simp only [Function.comp, decide_eq_false_iff_not]
      omega
    · have hstep : checkRateLimit s k now =
          (none,
           { s with request_counts :=
               astore s.request_counts k (w ++ [now]) }) := by
        rw [checkRateLimit, hw, hpr, if_neg (by rw [hmax]; omega), astore_astore]
      have htail := ih
        { s with request_counts := astore s.request_counts k (w ++ [now]) }
        (w ++ [now]) hwin hmax (by rw [alookup_astore_self]; rfl) hspannew
      simp only [applyRequests, hstep, Option.isNone_none]
      rw [htail]
      have h0 : decide (w.length + 0 < 100) = true := by
        simp only [decide_eq_true_eq]
        omega
      rw [h0]
      congr 1
      rw [List.map_map]
      apply List.map_congr_left
      intro i _
      simp only [Function.comp, List.length_append, List.length_cons,
        List.length_nil, Nat.succ_eq_add_one]
      apply decide_eq_decide.mpr
      omega

/-- C4 (confirmed): `check_rate_limit` first drops from the key's window
every timestamp at least one window (60 s) older than the call instant,
stores the pruned window, fails with `RateLimited` (HTTP 429) if the
remaining count is at least the configured max of 100, and otherwise appends
the current instant and succeeds. Consequently, of 101 requests within one
window span the first 100 succeed and the 101st fails with `RateLimited`,
and a request made after the whole window has elapsed succeeds again. -/
theorem checkRateLimit_sliding_window :
    (∀ (s : SecurityManager) (k : String) (now : Int),
       s.rate_limit_window = 60 → s.rate_limit_requests = 100 →
       (let pruned := ((alookup s.request_counts k).getD []).filter
           (fun t => now - t < 60)
        (100 ≤ pruned.length →
           checkRateLimit s k now =
             (some .rateLimited,
              { s with request_counts := astore s.request_counts k pruned })) ∧
        (pruned.length < 100 →
           checkRateLimit s k now =
             (none,
              { s with request_counts :=
                  astore s.request_counts k (pruned ++ [now]) })))) ∧
    (∀ (s : SecurityManager) (k : String) (ts : List Int),
       s.rate_limit_window = 60 → s.rate_limit_requests = 100 →
       (alookup s.request_counts k).getD [] = [] →
       ts.length = 101 →
       (∀ x ∈ ts, ∀ y ∈ ts, x - y < 60) →
       (applyRequests s k ts).2 = List.replicate 100 true ++ [false]) ∧
    (∀ (s : SecurityManager) (k : String) (now : Int),
       s.rate_limit_window = 60 → s.rate_limit_requests = 100 →
       (∀ t ∈ (alookup s.request_counts k).getD [], 60 ≤ now - t) →
       (checkRateLimit s k now).1 = none ∧
       alookup (checkRateLimit s k now).2.request_counts k = some [now]) := by
  refine ⟨?_, ?_, ?_⟩
  · intro s k now hwin hmax
    refine ⟨?_, ?_⟩
    · intro hge
      rw [checkRateLimit, hwin, if_pos (by rw [hmax]; exact hge)]
    · intro hlt
      rw [checkRateLimit, hwin, if_neg (by rw [hmax]; omega), astore_astore]
  · intro s k ts hwin hmax hempty hlen hspan
    have hrun := applyRequests_run ts s k [] hwin hmax hempty
      (by intro x hx y hy; simp only [List.nil_append] at hy; exact hspan x hx y hy)
    rw [hrun, hlen]
    decide
  · intro s k now hwin hmax hold
    have hpr : List.filter (fun t => now - t < s.rate_limit_window)
        ((alookup s.request_counts k).getD []) = [] := by
      apply List.filter_eq_nil_iff.mpr
      intro t ht
      have h := hold t ht
      rw [hwin]
      simp only [decide_eq_true_eq]
      omega
    constructor
    · rw [checkRateLimit, hpr, if_neg (by rw [hmax]; simp)]
    · rw [checkRateLimit, hpr, if_neg (by rw [hmax]; simp), astore_astore]
      dsimp only
      rw [alookup_astore_self]
      simp
/-- Witness for C4: the accept branch on the freshly constructed state, 101
simultaneous requests on a fresh state (100 accepted, the 101st limited),
and recovery of a saturated single-entry window after 60 seconds. -/
theorem checkRateLimit_sliding_window_witness :
    (checkRateLimit secInit "sk_codealchemy_n8n_2025" 0 =
      (none,
       { secInit with
         request_counts :=
           astore secInit.request_counts "sk_codealchemy_n8n_2025"
             (([] : List Int) ++ [0]) })) ∧
    ((applyRequests secInit "sk_codealchemy_n8n_2025"
        (List.replicate 101 (0 : Int))).2 =
      List.replicate 100 true ++ [false]) ∧
    ((checkRateLimit
        { request_counts := [("sk_codealchemy_n8n_2025", [(0 : Int)])] }
        "sk_codealchemy_n8n_2025" 60).1 = none) :=
  ⟨(checkRateLimit_sliding_window.1 secInit "sk_codealchemy_n8n_2025" 0
      rfl rfl).2 (by decide),
   checkRateLimit_sliding_window.2.1 secInit "sk_codealchemy_n8n_2025"
     (List.replicate 101 (0 : Int)) rfl rfl rfl (by decide) (by decide),
   (checkRateLimit_sliding_window.2.2
     { request_counts := [("sk_codealchemy_n8n_2025", [(0 : Int)])] }
     "sk_codealchemy_n8n_2025" 60 rfl rfl (by decide)).1⟩

/-! ## C5 — history buffers capped at 1000, FIFO eviction -/

theorem recordsFrom_length (serial0 : Nat) (inputs : List SubmitInput) :
    (recordsFrom serial0 inputs).length = inputs.length := by
  induction inputs generalizing serial0 with
  | nil => rfl
  | cons x rest ih => simp [recordsFrom, ih]

theorem serial_ge_of_mem_recordsFrom (serial0 : Nat) (inputs : List SubmitInput)
    (r : WebhookRecord) (h : r ∈ recordsFrom serial0 inputs) :
    serial0 ≤ r.serial := by
  induction inputs generalizing serial0 with
  | nil => cases h
  | cons x rest ih =>
    rcases List.mem_cons.mp h with h1 | h2
    · rw [h1]
    · have := ih (serial0 + 1) h2
      omega

theorem submitSeq_history (inputs : List SubmitInput) (h : WebhookHandler) :
    (submitSeq h inputs).webhook_history =
      (recordsFrom h.next_serial inputs).foldl (pushCap h.max_history)
        h.webhook_history ∧
    (submitSeq h inputs).max_history = h.max_history := by
  induction inputs generalizing h with
  | nil => exact ⟨rfl, rfl⟩
  | cons x rest ih =>
    obtain ⟨ih1, ih2⟩ := ih (processWebhook h x.wtype x.payload x.now).2
    constructor
    · show (submitSeq (processWebhook h x.wtype x.payload x.now).2 rest).webhook_history = _
      rw [ih1]
      simp only [recordsFrom, List.foldl_cons]
      rfl
    · show (submitSeq (processWebhook h x.wtype x.payload x.now).2 rest).max_history = _
      rw [ih2]
      rfl

theorem addSeq_history (calls : List HistCall) (m : AgentManager) :
    (addSeq m calls).agent_status_history =
      (calls.map (fun c =>
        mkHistoryEntry c.agent_name c.result c.execution_time c.now)).foldl
          (pushCap m.max_history) m.agent_status_history ∧
    (addSeq m calls).max_history = m.max_history := by
  induction calls generalizing m with
  | nil => exact ⟨rfl, rfl⟩
  | cons c rest ih =>
    obtain ⟨ih1, ih2⟩ :=
      ih (addToHistory m c.agent_name c.result c.execution_time c.now)
    constructor
    · show (addSeq (addToHistory m c.agent_name c.result c.execution_time
          c.now) rest).agent_status_history = _
      rw [ih1]
      simp only [List.map_cons, List.foldl_cons]
      rfl
    · show (addSeq (addToHistory m c.agent_name c.result c.execution_time
          c.now) rest).max_history = _
      rw [ih2]
      rfl

theorem applyOp_history_shape (m : AgentManager) (op : MOp) :
    (applyOp m op).max_history = m.max_history ∧
    ((applyOp m op).agent_status_history = m.agent_status_history ∨
     ∃ entry, (applyOp m op).agent_status_history =
       pushCap m.max_history m.agent_status_history entry) := by
  cases op with
  | exec name p t now =>
    simp only [applyOp]
    cases hl : alookup m.agents name with
    | none =>
      have hm : (executeAgent m name p t now).2 = m := by
        simp [executeAgent, hl]
      rw [hm]
      exact ⟨rfl, Or.inl rfl⟩
    | some a =>
      by_cases hen : a.enabled = false
      · have hm : (executeAgent m name p t now).2 = m := by
          simp [executeAgent, hl, hen]
        rw [hm]
        exact ⟨rfl, Or.inl rfl⟩
      · have hen2 : a.enabled = true := by revert hen; cases a.enabled <;> simp
        by_cases hval : a.validate_parameters p = true
        · cases hex : a.execute p with
          | error e =>
            rw [executeAgent_raise_eq m name a p e t now hl hen2 hval hex]
            exact ⟨rfl, Or.inl rfl⟩
          | ok r =>
            rw [executeAgent_ok_eq m name a p r t now hl hen2 hval hex]
            exact ⟨rfl, Or.inr ⟨mkHistoryEntry name r t now, rfl⟩⟩
        · have hval2 : a.validate_parameters p = false := by
            revert hval; cases a.validate_parameters p <;> simp
          have hm : (executeAgent m name p t now).2 = m := by
            simp [executeAgent, hl, hen2, hval2]
          rw [hm]
          exact ⟨rfl, Or.inl rfl⟩
  | enable name now =>
    simp only [applyOp]
    cases hl : alookup m.agents name with
    | none => exact ⟨by simp [enableAgent, hl], Or.inl (by simp [enableAgent, hl])⟩
    | some a => exact ⟨by simp [enableAgent, hl], Or.inl (by simp [enableAgent, hl])⟩
  | disable name now =>
    simp only [applyOp]
    cases hl : alookup m.agents name with
    | none => exact ⟨by simp [disableAgent, hl], Or.inl (by simp [disableAgent, hl])⟩
    | some a => exact ⟨by simp [disableAgent, hl], Or.inl (by simp [disableAgent, hl])⟩
  | addTrigger name trig =>
    simp only [applyOp]
    cases hl : alookup m.agents name with
    | none =>
      exact ⟨by simp [addWorkflowTrigger, hl],
             Or.inl (by simp [addWorkflowTrigger, hl])⟩
    | some a =>
      exact ⟨by simp [addWorkflowTrigger, hl],
             Or.inl (by simp [addWorkflowTrigger, hl])⟩

/-- C5 (confirmed): the webhook history buffer and the agent execution
history buffer never exceed the 1000-entry cap under any sequence of
submissions or manager operations, and eviction is oldest-first: after 1001
sequential submissions each buffer holds exactly the most recent 1000
records (the submission list with its first element dropped) and the
first-submitted webhook record is absent. -/
theorem history_buffers_capped_fifo :
    (∀ (h : WebhookHandler) (inputs : List SubmitInput),
       h.max_history = 1000 → h.webhook_history.length ≤ 1000 →
       (submitSeq h inputs).webhook_history.length ≤ 1000) ∧
    (∀ (m : AgentManager) (ops : List MOp),
       m.max_history = 1000 → m.agent_status_history.length ≤ 1000 →
       ((ops.foldl applyOp m).agent_status_history.length ≤ 1000)) ∧
    (∀ (inputs : List SubmitInput), inputs.length = 1001 →
       (submitSeq {} inputs).webhook_history =
         (recordsFrom 0 inputs).drop 1 ∧
       (∀ r0, (recordsFrom 0 inputs).head? = some r0 →
          r0 ∉ (submitSeq {} inputs).webhook_history)) ∧
    (∀ (m : AgentManager) (calls : List HistCall),
       m.max_history = 1000 → m.agent_status_history = [] →
       calls.length = 1001 →
       (addSeq m calls).agent_status_history =
         (calls.map (fun c =>
           mkHistoryEntry c.agent_name c.result c.execution_time c.now)).drop 1) := by
  refine ⟨?_, ?_, ?_, ?_⟩
  · intro h inputs hcap hle
    rw [(submitSeq_history inputs h).1, hcap]
    exact foldl_pushCap_length_le 1000 _ _ hle
  · intro m ops hcap hle
    induction ops generalizing m with
    | nil => exact hle
    | cons op rest ih =>
      obtain ⟨hmax, hshape⟩ := applyOp_history_shape m op
      rw [List.foldl_cons]
      apply ih
      · rw [hmax, hcap]
      · rcases hshape with h1 | ⟨entry, h2⟩
        · rw [h1]; exact hle
        · rw [h2, hcap]
          exact pushCap_length_le 1000 _ _ hle
  · intro inputs hlen
    have hhist := (submitSeq_history inputs {}).1
    have hrecl := recordsFrom_length 0 inputs
    have hfold := foldl_pushCap_eq_drop 1000 (recordsFrom 0 inputs) []
      (by simp)
    constructor
    · rw [hhist, hfold]
      simp only [List.nil_append, List.length_nil, Nat.zero_add]
      rw [hrecl, hlen]
    · intro r0 hr0 hmem
      cases hx : inputs with
      | nil => rw [hx] at hlen; simp at hlen
      | cons x rest =>
        rw [hx] at hr0
        simp only [recordsFrom, List.head?_cons, Option.some.injEq] at hr0
        have hser0 : r0.serial = 0 := by rw [← hr0]
        rw [hhist, hfold] at hmem
        simp only [List.nil_append, List.length_nil, Nat.zero_add] at hmem
        rw [hrecl, hlen] at hmem
        rw [hx] at hmem
        simp only [recordsFrom] at hmem
        rw [List.drop_succ_cons, List.drop_zero] at hmem
        have := serial_ge_of_mem_recordsFrom 1 rest r0 hmem
        omega
  · intro m calls hcap hempty hlen
    rw [(addSeq_history calls m).1, hempty, hcap]
    rw [foldl_pushCap_eq_drop 1000 _ [] (by simp)]
    simp only [List.nil_append, List.length_nil, Nat.zero_add]
    rw [List.length_map, hlen]

/-- Witness for C5: concrete cap preservation and the 1001-submission FIFO
scenario on both buffers. -/
theorem history_buffers_capped_fifo_witness :
    ((submitSeq {} [⟨some "generic", [], ts0⟩]).webhook_history.length ≤ 1000) ∧
    (([MOp.exec "file_organization" [] 5 ts0].foldl applyOp
        mgrOk).agent_status_history.length ≤ 1000) ∧
    ((submitSeq {} (List.replicate 1001 ⟨some "generic", [], ts0⟩)).webhook_history =
      (recordsFrom 0 (List.replicate 1001 ⟨some "generic", [], ts0⟩)).drop 1) ∧
    ((addSeq mgrOk (List.replicate 1001 ⟨"file_organization",
        { success := true }, 5, ts0⟩)).agent_status_history =
      ((List.replicate 1001 (⟨"file_organization", { success := true }, 5,
          ts0⟩ : HistCall)).map (fun c =>
        mkHistoryEntry c.agent_name c.result c.execution_time c.now)).drop 1) :=
  ⟨history_buffers_capped_fifo.1 {} [⟨some "generic", [], ts0⟩] rfl
     (by decide),
   history_buffers_capped_fifo.2.1 mgrOk
     [MOp.exec "file_organization" [] 5 ts0] rfl (by decide),
   (history_buffers_capped_fifo.2.2.1
     (List.replicate 1001 ⟨some "generic", [], ts0⟩)
     (List.length_replicate 1001 _)).1,
   history_buffers_capped_fifo.2.2.2 mgrOk
     (List.replicate 1001 ⟨"file_organization", { success := true }, 5, ts0⟩)
     rfl rfl (List.length_replicate 1001 _)⟩

/-! ## C6 — the dispatcher loop survives handler exceptions, FIFO order -/

/-- C6 (confirmed): for ANY handler behaviour — including handlers that
raise on some records — running the consumer loop once per queued record
drains the whole queue, and the processed-serial log extends by exactly the
queued serials in submission order: no record is skipped (a raising handler
is caught by the routing layer and cannot stop the loop) and no record is
reordered. -/
theorem dispatcher_processes_all_in_order (hs : Handlers) (h : WebhookHandler)
    (ts : List Timestamp) (hlen : ts.length = h.processing_queue.length) :
    (drainAll hs ts h).processing_queue = [] ∧
    (drainAll hs ts h).processed_log =
      h.processed_log ++ h.processing_queue.map (·.serial) := by
  induction ts generalizing h with
  | nil =>
    have hq : h.processing_queue = [] :=
      List.eq_nil_of_length_eq_zero (by rw [← hlen]; rfl)
    exact ⟨hq, by rw [hq]; simp [drainAll]⟩
  | cons t rest ih =>
    cases hq : h.processing_queue with
    | nil => rw [hq] at hlen; simp at hlen
    | cons r qrest =>
      have hstep : processOne hs t h =
          { h with
            processing_queue := qrest,
            webhook_history := h.webhook_history.map
              (markProcessed t (routeWebhook hs r) r.serial),
            processed_log := h.processed_log ++ [r.serial] } := by
        simp only [processOne, hq]
      have hdrain : drainAll hs (t :: rest) h =
          drainAll hs rest (processOne hs t h) := rfl
      have hlen2 : rest.length = (processOne hs t h).processing_queue.length := by
        rw [hstep]
        rw [hq] at hlen
        simp at hlen ⊢
        omega
      obtain ⟨ih1, ih2⟩ := ih (processOne hs t h) hlen2
      refine ⟨by rw [hdrain]; exact ih1, ?_⟩
      rw [hdrain, ih2, hstep]
      simp [hq, List.append_assoc]

/-- Witness for C6: two queued webhooks where the first one's handler
raises; both still get processed, in submission order. -/
theorem dispatcher_processes_all_in_order_witness :
    (drainAll throwingHandlers [ts0, ts1] whTwo).processing_queue = [] ∧
    (drainAll throwingHandlers [ts0, ts1] whTwo).processed_log =
      whTwo.processed_log ++ whTwo.processing_queue.map (·.serial) :=
  dispatcher_processes_all_in_order throwingHandlers whTwo [ts0, ts1]
    (by decide)

/-! ## C10 — error-handled records are marked processed and counted -/

theorem countP_processed_markProcessed (l : List WebhookRecord)
    (now : Timestamp) (res : RouteResult) (serial : Nat) :
    (l.map (markProcessed now res serial)).countP (·.processed) =
      l.countP (·.processed) +
        l.countP (fun x => x.serial == serial && !x.processed) := by
  induction l with
  | nil => rfl
  | cons x rest ih =>
    simp only [List.map_cons, List.countP_cons, ih]
    by_cases hs1 : x.serial = serial
    · by_cases hs2 : x.processed
      · simp [markProcessed, hs1, hs2]
        omega
      · simp [markProcessed, hs1, hs2]
        omega
    · by_cases hs2 : x.processed
      · simp [markProcessed, hs1, hs2]
        omega
      · simp [markProcessed, hs1, hs2]

/-- C10 (confirmed): when the dispatcher drains a record whose type handler
raises, the stored record is still marked `processed=true` with a
`processed_at` stamp and result `{"status": "error", "message": ...}` —
so `processed=true` does not imply successful handling — the history length
(the stats denominator) is unchanged, and every such newly error-handled
record is counted into `processed_webhooks`, the numerator of
`get_webhook_stats`'s success rate. -/
theorem error_handled_records_marked_processed (hs : Handlers)
    (h : WebhookHandler) (r : WebhookRecord) (rest : List WebhookRecord)
    (now : Timestamp) (e : String)
    (hq : h.processing_queue = r :: rest)
    (hraise : selectHandler hs (r.wtype.getD "unknown") r = .error e) :
    (processOne hs now h).webhook_history =
      h.webhook_history.map (markProcessed now
        { status := "error", message := some e } r.serial) ∧
    (∀ x ∈ h.webhook_history, x.serial = r.serial →
       markProcessed now { status := "error", message := some e } r.serial x =
         { x with processed := true, processed_at := some now,
                  result := some { status := "error", message := some e } }) ∧
    (getWebhookStats (processOne hs now h)).total_webhooks =
      (getWebhookStats h).total_webhooks ∧
    (getWebhookStats (processOne hs now h)).processed_webhooks =
      (getWebhookStats h).processed_webhooks +
        h.webhook_history.countP
          (fun x => x.serial == r.serial && !x.processed) := by
  have hroute : routeWebhook hs r = { status := "error", message := some e } := by
    rw [routeWebhook, hraise]
  have hstep : processOne hs now h =
      { h with
        processing_queue := rest,
        webhook_history := h.webhook_history.map
          (markProcessed now { status := "error", message := some e } r.serial),
        processed_log := h.processed_log ++ [r.serial] } := by
    simp only [processOne, hq, hroute]
  refine ⟨by rw [hstep], ?_, ?_, ?_⟩
  · intro x _ hxs
    rw [markProcessed, if_pos hxs]
  · rw [hstep]
    simp [getWebhookStats]
  · rw [hstep]
    simp only [getWebhookStats]
    rw [← List.countP_eq_length_filter, ← List.countP_eq_length_filter]
    exact countP_processed_markProcessed h.webhook_history now _ r.serial

/-- Witness for C10 at the two-submission fixture whose first queued record
has a raising handler. -/
theorem error_handled_records_marked_processed_witness :
    (processOne throwingHandlers ts1 whTwo).webhook_history =
      whTwo.webhook_history.map (markProcessed ts1
        { status := "error", message := some "alert handler crashed" } 0) ∧
    (∀ x ∈ whTwo.webhook_history, x.serial = 0 →
       markProcessed ts1
           { status := "error", message := some "alert handler crashed" } 0 x =
         { x with processed := true, processed_at := some ts1,
                  result := some { status := "error",
                                   message := some "alert handler crashed" } }) ∧
    (getWebhookStats (processOne throwingHandlers ts1 whTwo)).total_webhooks =
      (getWebhookStats whTwo).total_webhooks ∧
    (getWebhookStats (processOne throwingHandlers ts1
        whTwo)).processed_webhooks =
      (getWebhookStats whTwo).processed_webhooks +
        whTwo.webhook_history.countP (fun x => x.serial == 0 && !x.processed) :=
  error_handled_records_marked_processed throwingHandlers whTwo
    ⟨some "system_alert", [], some ts0, false, none, none,
      generateWebhookId ts0, 0⟩
    [⟨some "generic", [], some ts1, false, none, none,
      generateWebhookId ts1, 1⟩]
    ts1 "alert handler crashed" rfl rfl

/-! ## C8 — webhook id uniqueness -/

/-- C8 (counterexample to the claim as stated): two sequential submissions
in the same microsecond (the same `datetime.now()` reading — nothing in the
code prevents two consecutive calls from observing the same clock value)
create two distinct records (serials 0 and 1) carrying the SAME
`webhook_id`: timestamp-based generation alone does not guarantee
uniqueness. -/
theorem webhookId_collision_same_microsecond :
    ((processWebhook (processWebhook ({} : WebhookHandler) (some "generic")
        [] ts0).2 (some "generic") [] ts0).1).webhook_id =
      ((processWebhook ({} : WebhookHandler) (some "generic") [] ts0).1).webhook_id ∧
    ((processWebhook (processWebhook ({} : WebhookHandler) (some "generic")
        [] ts0).2 (some "generic") [] ts0).2).webhook_history.map (·.serial) =
      [0, 1] :=
  ⟨rfl, rfl⟩

/-- C8 (amended): two sequential submissions whose `datetime.now()` readings
are distinct calendar instants (within `strftime` field ranges, in
particular at distinct microseconds) always receive distinct webhook ids:
`_generate_webhook_id` prints every field of the instant in a fixed width,
so it is injective on valid instants. -/
theorem webhookIds_differ_for_distinct_times (h : WebhookHandler)
    (w1 w2 : Option String) (p1 p2 : List (String × String))
    (t t2 : Timestamp) (hv : t.valid) (hv2 : t2.valid) (hne : t ≠ t2) :
    ((processWebhook (processWebhook h w1 p1 t).2 w2 p2 t2).1).webhook_id ≠
      ((processWebhook h w1 p1 t).1).webhook_id := by
  show some (generateWebhookId t2) ≠ some (generateWebhookId t)
  intro he
  exact hne (generateWebhookId_inj t t2 hv hv2 (Option.some.inj he).symm)

/-- Witness for C8 (amended): submissions one microsecond apart get
distinct ids. -/
theorem webhookIds_differ_for_distinct_times_witness :
    ((processWebhook (processWebhook ({} : WebhookHandler) (some "generic")
        [] ts0).2 (some "generic") [] ts1).1).webhook_id ≠
      ((processWebhook ({} : WebhookHandler) (some "generic") [] ts0).1).webhook_id :=
  webhookIds_differ_for_distinct_times {} (some "generic") (some "generic")
    [] [] ts0 ts1 (by decide) (by decide) (by decide)

/-! ## C9 — key rotation stores the SHA-256 digest -/

theorem find?_value_aset (l : List (String × String)) (key v : String)
    (hpresent : (alookup l key).isSome)
    (hnocol : ∀ p ∈ l, p.1 ≠ key → p.2 ≠ v) :
    (aset l key v).find? (fun p => p.2 = v) = some (key, v) := by
  induction l with
  | nil => simp [alookup] at hpresent
  | cons q rest ih =>
    cases q with
    | mk k0 v0 =>
      rw [aset]
      by_cases hk : k0 = key
      · rw [if_pos hk, List.find?_cons_of_pos _ (by simp), hk]
      · rw [if_neg hk]
        have hv0 : v0 ≠ v := hnocol (k0, v0) (by simp) hk
        rw [List.find?_cons_of_neg _ (by simpa using hv0)]
        apply ih
        · rw [alookup] at hpresent
          rw [if_neg hk] at hpresent
          exact hpresent
        · intro p hp hpk
          exact hnocol p (List.mem_cons_of_mem _ hp) hpk

/-- C9 (counterexample to the claim as stated): rotating `n8n_main` to the
plaintext of another configured key (`sk_codealchemy_monitor_2025`) returns
true and stores the digest, yet `validate_api_key` of that new key still
SUCCEEDS (returning the other key's name) although the key differs from its
own SHA-256 digest — the claim's universal failure guarantee does not hold
when the new key collides with another stored value. -/
theorem rotateApiKey_other_key_still_accepted :
    (rotateApiKey secInit "n8n_main" "sk_codealchemy_monitor_2025").1 = true ∧
    "sk_codealchemy_monitor_2025" ≠
      sha256hex "sk_codealchemy_monitor_2025" ∧
    validateApiKey (rotateApiKey secInit "n8n_main"
        "sk_codealchemy_monitor_2025").2 "sk_codealchemy_monitor_2025" =
      .ok "n8n_monitoring" :=
  ⟨rfl, by decide, rfl⟩

/-- C9 (amended): after `rotate_api_key(key_name, new_key)` returns true,
the SHA-256 hex digest of `new_key` is stored in place of the key, so
`validate_api_key(new_key)` fails with `Unauthorized` (401) whenever
`new_key` differs from its own digest AND from every other stored key
value, and the digest itself is accepted as the credential for `key_name`
(provided no other entry stores the same value). -/
theorem rotateApiKey_stores_digest (s : SecurityManager)
    (key_name new_key : String)
    (hpresent : (alookup s.api_keys key_name).isSome)
    (hother : ∀ p ∈ s.api_keys, p.1 ≠ key_name → p.2 ≠ new_key)
    (hnotdigest : new_key ≠ sha256hex new_key)
    (hnocol : ∀ p ∈ s.api_keys, p.1 ≠ key_name → p.2 ≠ sha256hex new_key) :
    (rotateApiKey s key_name new_key).1 = true ∧
    alookup (rotateApiKey s key_name new_key).2.api_keys key_name =
      some (sha256hex new_key) ∧
    validateApiKey (rotateApiKey s key_name new_key).2 new_key =
      .error .unauthorized ∧
    validateApiKey (rotateApiKey s key_name new_key).2 (sha256hex new_key) =
      .ok key_name := by
  have hrot : rotateApiKey s key_name new_key =
      (true, { s with api_keys := aset s.api_keys key_name
                        (sha256hex new_key) }) := by
    rw [rotateApiKey, if_pos hpresent]
  refine ⟨by rw [hrot], ?_, ?_, ?_⟩
  · rw [hrot]
    obtain ⟨w, hw⟩ := Option.isSome_iff_exists.mp hpresent
    dsimp only
    rw [alookup_aset, hw]
    rfl
  · rw [hrot]
    rw [validateApiKey]
    have hnone : (aset s.api_keys key_name (sha256hex new_key)).find?
        (fun p => p.2 = new_key) = none := by
      apply List.find?_eq_none.mpr
      intro p hp
      rcases mem_aset hp with ⟨hm, hne⟩ | ⟨h1, h2, w, hw⟩
      · simpa using hother p hm hne
      · simp only [h2]
        simpa using fun hc => hnotdigest hc.symm
    rw [hnone]
  · rw [hrot]
    rw [validateApiKey]
    rw [find?_value_aset s.api_keys key_name (sha256hex new_key) hpresent hnocol]

/-- Witness for C9 (amended): rotating `n8n_main` to a fresh key `foo`. -/
theorem rotateApiKey_stores_digest_witness :
    (rotateApiKey secInit "n8n_main" "foo").1 = true ∧
    alookup (rotateApiKey secInit "n8n_main" "foo").2.api_keys "n8n_main" =
      some (sha256hex "foo") ∧
    validateApiKey (rotateApiKey secInit "n8n_main" "foo").2 "foo" =
      .error .unauthorized ∧
    validateApiKey (rotateApiKey secInit "n8n_main" "foo").2
        (sha256hex "foo") = .ok "n8n_main" :=
  rotateApiKey_stores_digest secInit "n8n_main" "foo" (by decide)
    (by decide) (by decide) (by decide)

end CodeAlchemy
